/-
Verification of the fanotify-cmdline monitor (src/fanotify-cmdline.c).

The C program is shallowly embedded: C strings become lists of byte values
(`List Nat`), machine integers become `Nat`/`Int` (with masking where the C
width matters), and every system call is modelled by an explicit input
describing what the kernel returned.  Each definition mirrors one function
or loop of the source file.
-/
import Mathlib

namespace Fanotify

/-! ## Event-category flag values (linux/fanotify.h) -/

def FAN_ACCESS : Nat := 0x00000001
def FAN_MODIFY : Nat := 0x00000002
def FAN_CLOSE_WRITE : Nat := 0x00000008
def FAN_CLOSE_NOWRITE : Nat := 0x00000010
def FAN_OPEN : Nat := 0x00000020
def FAN_EVENT_ON_CHILD : Nat := 0x08000000
def FAN_ONDIR : Nat := 0x40000000

/-- The default subscription mask (`event_mask` initializer, lines 46–53):
bitwise OR of all seven categories. -/
def base_mask : Nat :=
  FAN_ACCESS ||| FAN_MODIFY ||| FAN_CLOSE_WRITE ||| FAN_CLOSE_NOWRITE |||
  FAN_OPEN ||| FAN_ONDIR ||| FAN_EVENT_ON_CHILD

/-- C `event_mask &= ~mask` on a `uint64_t`: AND with the 64-bit complement. -/
def andNot64 (m mask : Nat) : Nat := m &&& (mask ^^^ (2 ^ 64 - 1))

/-! ## Byte-string helpers (ASCII, as C's str* functions see them) -/

/-- `tolower` on an ASCII byte, as used by `strcasecmp`/`strcasestr`. -/
def bToLower (b : Nat) : Nat := if 65 ≤ b ∧ b ≤ 90 then b + 32 else b

/-- Lower-case image of a byte string. -/
def lowerBytes (s : List Nat) : List Nat := s.map bToLower

/-- `strcasecmp a b == 0`: the two strings agree up to ASCII case. -/
def strcaseeq (a b : List Nat) : Bool := lowerBytes a == lowerBytes b

/-- Does `needle` occur at the head of `hay`, ignoring case? -/
def caseStartsWith : List Nat → List Nat → Bool
  | _, [] => true
  | [], _ :: _ => false
  | h :: hs, n :: ns => (bToLower h == bToLower n) && caseStartsWith hs ns

/-- `strcasestr hay needle`, returning the suffix of `hay` *after* the first
case-insensitive occurrence of `needle` (i.e. the C result pointer advanced
by `strlen(needle)`), or `none` when there is no occurrence. -/
def caseFindDrop : List Nat → List Nat → Option (List Nat)
  | [], needle => if needle.isEmpty then some [] else none
  | h :: hs, needle =>
    if caseStartsWith (h :: hs) needle then some ((h :: hs).drop needle.length)
    else caseFindDrop hs needle

/-- ASCII bytes of a Lean string literal (all our literals are ASCII). -/
def bytes (s : String) : List Nat := s.data.map Char.toNat

/-! ## getmask (lines 225–253) -/

/-- The static name/value table `fanmask` inside `getmask`. -/
def fanmaskTable : List (List Nat × Nat) :=
  [ (bytes "ACCESS", FAN_ACCESS),
    (bytes "MODIFY", FAN_MODIFY),
    (bytes "CLOSE_WRITE", FAN_CLOSE_WRITE),
    (bytes "CLOSE_NOWRITE", FAN_CLOSE_NOWRITE),
    (bytes "OPEN", FAN_OPEN),
    (bytes "ONDIR", FAN_ONDIR),
    (bytes "EVENT_ON_CHILD", FAN_EVENT_ON_CHILD) ]

/-- The `do … while (fanmask[++i].name != NULL)` search: first table entry
whose name equals `body` up to case, else 0. -/
def lookupMask : List (List Nat × Nat) → List Nat → Nat
  | [], _ => 0
  | (n, v) :: rest, body => if strcaseeq body n then v else lookupMask rest body

/-- `body` as computed by `getmask`: the part of `name` after the first
case-insensitive occurrence of `"FAN_"` (anywhere in the string, because the
source uses `strcasestr`), or the whole name when `"FAN_"` does not occur. -/
def stripFan (name : List Nat) : List Nat :=
  (caseFindDrop name (bytes "FAN_")).getD name

/-- `getmask` (lines 225–253): resolve a category name to its flag value,
0 when unrecognized. -/
def getmask (name : List Nat) : Nat := lookupMask fanmaskTable (stripFan name)

/-! ## Event categories as an abstract enumeration (spec §3) -/

inductive Cat where
  | accessed | modified | closedWrite | closedNoWrite | opened | onDir | onChild
deriving DecidableEq, Fintype, Repr

/-- The flag value of a category. -/
def catBit : Cat → Nat
  | .accessed => FAN_ACCESS
  | .modified => FAN_MODIFY
  | .closedWrite => FAN_CLOSE_WRITE
  | .closedNoWrite => FAN_CLOSE_NOWRITE
  | .opened => FAN_OPEN
  | .onDir => FAN_ONDIR
  | .onChild => FAN_EVENT_ON_CHILD

/-- The canonical (un-prefixed) name of a category, as in the usage text and
the `fanmask` table. -/
def catName : Cat → String
  | .accessed => "ACCESS"
  | .modified => "MODIFY"
  | .closedWrite => "CLOSE_WRITE"
  | .closedNoWrite => "CLOSE_NOWRITE"
  | .opened => "OPEN"
  | .onDir => "ONDIR"
  | .onChild => "EVENT_ON_CHILD"

/-- An Add (`+e NAME`) or Remove (`-e NAME`) directive over a recognized
category. -/
structure Directive where
  add : Bool
  cat : Cat
deriving DecidableEq, Repr

/-- One directive applied to a mask: `event_mask |= mask` for Add (line 282)
and `event_mask &= ~mask` for Remove (line 294). -/
def applyDirective (m : Nat) (d : Directive) : Nat :=
  if d.add then m ||| catBit d.cat else andNot64 m (catBit d.cat)

/-- The two argv words a directive is written as. -/
def renderDirective (d : Directive) : List String :=
  [if d.add then "+e" else "-e", catName d.cat]

/-- A directive sequence rendered as consecutive argv words. -/
def renderDirectives (ds : List Directive) : List String :=
  ds.flatMap renderDirective

/-! ## Option parsing (main, lines 264–310) -/

/-- The option loop of `main` (lines 274–302), acting on `argv[i:]` as a list.
Returns the final `event_mask` and the loop-exit value of `i`.  A `+e`/`-e`
with an operand consumes two words (`++i` inside the branch plus the `for`
increment); a trailing `+e`/`-e` without an operand leaves `i == argc`
(the `break` after `++i` failed the bound check); any other word stops the
loop at its own index. -/
def parseOpts : Nat → List String → Nat → Nat × Nat
  | em, [], i => (em, i)
  | em, a :: rest, i =>
    if a = "+e" then
      match rest with
      | [] => (em, i + 1)
      | b :: rest' =>
        let m := getmask (bytes b)
        parseOpts (if m = 0 then em else em ||| m) rest' (i + 2)
    else if a = "-e" then
      match rest with
      | [] => (em, i + 1)
      | b :: rest' =>
        let m := getmask (bytes b)
        parseOpts (if m = 0 then em else andNot64 em m) rest' (i + 2)
    else (em, i)

def EXIT_FAILURE : Nat := 1

/-- Outcome of `main`'s startup phase (lines 264–329): whether the usage
error path was taken (printing usage and exiting `EXIT_FAILURE` before any
channel is opened), and otherwise the final `event_mask` global and the
monitored directories `argv[i..argc-1]` handed to `initialize_fanotify`. -/
structure Startup where
  usage : Bool
  exitCode : Option Nat
  signalFdOpened : Bool
  fanotifyFdOpened : Bool
  event_mask : Nat
  monitors : List String
deriving DecidableEq, Repr

/-- Startup phase of `main`: the `argc < 2` usage check (line 265), the reset
of the mask when `argv[1]` is `"+e"` (line 272), the option loop, the
`argc <= i` usage check (line 306), and otherwise signalfd/fanotify setup
with marks on `argv[i..]` (lines 313–323; `--i` before passing
`argc - i, &argv[i]` makes the monitored paths exactly `argv[i..argc-1]`). -/
def mainStartup (argv : List String) : Startup :=
  if argv.length < 2 then
    { usage := true, exitCode := some EXIT_FAILURE, signalFdOpened := false,
      fanotifyFdOpened := false, event_mask := base_mask, monitors := [] }
  else if argv.length ≤ (parseOpts (if argv.getD 1 "" = "+e" then 0 else base_mask)
                          (argv.drop 1) 1).2 then
    { usage := true, exitCode := some EXIT_FAILURE, signalFdOpened := false,
      fanotifyFdOpened := false,
      event_mask := (parseOpts (if argv.getD 1 "" = "+e" then 0 else base_mask)
                      (argv.drop 1) 1).1,
      monitors := [] }
  else
    { usage := false, exitCode := none, signalFdOpened := true,
      fanotifyFdOpened := true,
      event_mask := (parseOpts (if argv.getD 1 "" = "+e" then 0 else base_mask)
                      (argv.drop 1) 1).1,
      monitors := argv.drop (parseOpts (if argv.getD 1 "" = "+e" then 0 else base_mask)
                              (argv.drop 1) 1).2 }

/-! ## Event-record decoder (FAN_EVENT_OK / FAN_EVENT_NEXT loop, lines 373–381) -/

/-- `sizeof(struct fanotify_event_metadata)`: u32 event_len, u8 vers,
u8 reserved, u16 metadata_len, u64 mask, s32 fd, s32 pid = 24 bytes. -/
def FAN_EVENT_METADATA_LEN : Nat := 24

/-- Little-endian value of `n` bytes of `buf` starting at offset `off`
(bytes past the end read as 0; the decoder never does that, see
`fanDecode_take`). -/
def readLE (buf : List Nat) (off : Nat) : Nat → Nat
  | 0 => 0
  | n + 1 => buf.getD off 0 + 256 * readLE buf (off + 1) n

/-- Reinterpret a u32 value as the signed `__s32` it encodes. -/
def toI32 (v : Nat) : Int := if v < 2 ^ 31 then (v : Int) else (v : Int) - 2 ^ 32

/-- A decoded `struct fanotify_event_metadata` header. -/
structure FanMeta where
  event_len : Nat
  mask : Nat
  fd : Int
  pid : Nat
deriving DecidableEq, Repr

/-- Parse the fixed header at the start of `buf`. -/
def parseMeta (buf : List Nat) : FanMeta :=
  { event_len := readLE buf 0 4,
    mask := readLE buf 8 8,
    fd := toI32 (readLE buf 16 4),
    pid := readLE buf 20 4 }

/-- The decode loop `while (FAN_EVENT_OK(metadata, length))` (lines 376–381):
`FAN_EVENT_OK` requires `len ≥ 24`, `event_len ≥ 24` and `event_len ≤ len`;
`FAN_EVENT_NEXT` advances the pointer by `event_len` (modelled by dropping
that many bytes) and subtracts it from `length`. -/
def fanDecode (buf : List Nat) (len : Nat) : List FanMeta :=
  if h : FAN_EVENT_METADATA_LEN ≤ len ∧
         FAN_EVENT_METADATA_LEN ≤ readLE buf 0 4 ∧ readLE buf 0 4 ≤ len then
    parseMeta buf :: fanDecode (buf.drop (readLE buf 0 4)) (len - readLE buf 0 4)
  else []
termination_by len
decreasing_by
  simp only [FAN_EVENT_METADATA_LEN] at h
  omega

/-! ## Per-record processing (event_process, lines 102–136, and the loop body
lines 377–379) -/

/-- The descriptor-release calls made by `event_process` for one record,
given the outcomes of path and command-line resolution: the single
unconditional `close(event->fd)` at line 135, on every path. -/
def event_process_closes (e : FanMeta) (pathRes cmdRes : Option (List Nat)) :
    List Int :=
  match pathRes, cmdRes with
  | _, _ => [e.fd]

/-- All release calls made on one record's descriptor by the batch loop:
the close inside `event_process` followed by the conditional
`if (metadata->fd > 0) close(metadata->fd)` at lines 378–379. -/
def record_closes (e : FanMeta) (pathRes cmdRes : Option (List Nat)) :
    List Int :=
  event_process_closes e pathRes cmdRes ++ (if 0 < e.fd then [e.fd] else [])

/-! ## Metadata resolution (lines 59–100) -/

/-- `get_program_cmdline_from_pid` (lines 59–85).  `openOk` is whether
`open("/proc/<pid>/cmdline")` succeeded; `readRes` is what `read` returned
(`none` for an error, `some s` for `s.length` bytes).  On success every NUL
byte among the bytes read — the trailing one included, since the loop runs
for `i < len` — is replaced by a space (32). -/
def get_program_cmdline_from_pid (openOk : Bool) (readRes : Option (List Nat)) :
    Option (List Nat) :=
  if ¬ openOk then none
  else
    match readRes with
    | none => none
    | some s =>
      if s.length = 0 then none
      else some (s.map (fun b => if b = 0 then 32 else b))

/-- `get_file_path_from_fd` (lines 87–100).  `readlinkRes` is what
`readlink("/proc/self/fd/<fd>")` would return; the guard `if (fd <= 0)`
rejects every non-positive descriptor before any lookup. -/
def get_file_path_from_fd (fd : Int) (readlinkRes : Option (List Nat)) :
    Option (List Nat) :=
  if fd ≤ 0 then none
  else
    match readlinkRes with
    | none => none
    | some p => some p

/-! ## The event loop (lines 332–384) and shutdown (lines 138–152) -/

def SIGINT : Nat := 2
def SIGTERM : Nat := 15

/-- `sizeof(struct signalfd_siginfo)`. -/
def SIGINFO_SIZE : Int := 128

/-- What the kernel reports for one iteration of the loop: whether `poll`
failed, which descriptors are readable, what the signalfd `read` returned
(`sigReadLen` bytes, carrying signal number `signo`), and what the fanotify
`read` returned (`fanReadLen`, negative on error, with `fanBuf` the bytes
placed in the buffer). -/
structure PollInput where
  pollFailed : Bool
  signalReady : Bool
  sigReadLen : Int
  signo : Nat
  fanReady : Bool
  fanReadLen : Int
  fanBuf : List Nat

/-- Result of one loop iteration. -/
inductive StepResult where
  /-- `exit(EXIT_FAILURE)` reached inside the loop: no teardown runs. -/
  | fatalExit
  /-- `break` at line 356: the loop ends and graceful shutdown follows. -/
  | breakLoop
  /-- The loop continues; the listed records were decoded and processed. -/
  | continueLoop (processed : List FanMeta)
deriving DecidableEq, Repr

/-- One iteration of the `for (;;)` loop (lines 332–384): a `poll` error
exits fatally (line 338); a signalfd read of the wrong size exits fatally
(line 350); SIGINT/SIGTERM breaks the loop; an unexpected signal is only
reported, and control falls through to the fanotify branch; the fanotify
branch decodes the buffer only when `read` returned a positive length —
a failed read is silently skipped. -/
def loopStep (inp : PollInput) : StepResult :=
  if inp.pollFailed then .fatalExit
  else if inp.signalReady ∧ inp.sigReadLen ≠ SIGINFO_SIZE then .fatalExit
  else if inp.signalReady ∧ (inp.signo = SIGINT ∨ inp.signo = SIGTERM) then .breakLoop
  else if inp.fanReady ∧ 0 < inp.fanReadLen then
    .continueLoop (fanDecode inp.fanBuf inp.fanReadLen.toNat)
  else .continueLoop []

/-- The marks added by `initialize_fanotify` (lines 172–189): one per
directory argument, each with the current `event_mask`. -/
def init_fanotify_marks (dirs : List String) (event_mask : Nat) :
    List (String × Nat) :=
  dirs.map (fun p => (p, event_mask))

/-- Observable effects of `shutdown_fanotify` (lines 138–152). -/
structure ShutdownTrace where
  /-- The `FAN_MARK_REMOVE` calls issued, in order, with their masks. -/
  removals : List (String × Nat)
  /-- The paths whose memory was released. -/
  freed : List String
  /-- Whether the fanotify descriptor was closed. -/
  channelClosed : Bool
deriving DecidableEq, Repr

/-- `shutdown_fanotify` (lines 138–152): for every monitored path, one
`fanotify_mark(FAN_MARK_REMOVE, event_mask, path)` whose return value is
discarded (`markFails` says which calls would fail — it influences nothing),
then `free` of the path; finally `free(monitors)` and `close(fanotify_fd)`. -/
def shutdown_fanotify (markFails : String → Bool) (monitors : List String)
    (event_mask : Nat) : ShutdownTrace :=
  { removals := monitors.map (fun p => (p, event_mask)),
    freed := monitors,
    channelClosed := true }

/-- What follows one loop iteration in `main`: only `breakLoop` (a
recognized termination signal) reaches the graceful teardown at
lines 386–388; a fatal exit or a continuing iteration performs none. -/
def mainIteration (inp : PollInput) (markFails : String → Bool)
    (monitors : List String) (event_mask : Nat) : Option ShutdownTrace :=
  match loopStep inp with
  | .breakLoop => some (shutdown_fanotify markFails monitors event_mask)
  | _ => none

/-- A byte chunk that is one complete event record: it holds at least a full
header and its declared `event_len` equals its extent.  Laying such chunks
back-to-back gives a buffer of well-formed records in the sense of the
decode loop's `FAN_EVENT_OK` checks. -/
def WFChunk (c : List Nat) : Prop := 24 ≤ c.length ∧ readLE c 0 4 = c.length

instance : DecidablePred WFChunk := fun c => by
  unfold WFChunk
  infer_instance

/-- The mask the option loop starts from: 0 when the reset directive `"+e"`
is the very first argument (line 272), the base default otherwise. -/
def startMask : List Directive → Nat
  | [] => base_mask
  | d :: _ => if d.add then 0 else base_mask

/-!
## Helper lemmas
-/

theorem readLE_append (c r : List Nat) (off n : Nat) (h : off + n ≤ c.length) :
    readLE (c ++ r) off n = readLE c off n := by
  induction n generalizing off with
  | zero => rfl
  | succ n ih =>
    simp only [readLE]
    rw [List.getD_append c r 0 off (by omega), ih (off + 1) (by omega)]

theorem readLE_take (buf : List Nat) (len off n : Nat) (h : off + n ≤ len) :
    readLE (buf.take len) off n = readLE buf off n := by
  induction n generalizing off with
  | zero => rfl
  | succ n ih =>
    simp only [readLE]
    have hg : (buf.take len).getD off 0 = buf.getD off 0 := by
      show ((buf.take len).get? off).getD 0 = (buf.get? off).getD 0
      rw [List.get?_take (by omega)]
    rw [hg, ih (off + 1) (by omega)]

theorem parseMeta_append (c r : List Nat) (h : 24 ≤ c.length) :
    parseMeta (c ++ r) = parseMeta c := by
  simp only [parseMeta]
  rw [readLE_append c r 0 4 (by omega), readLE_append c r 8 8 (by omega),
      readLE_append c r 16 4 (by omega), readLE_append c r 20 4 (by omega)]

theorem parseMeta_take (buf : List Nat) (len : Nat) (h : 24 ≤ len) :
    parseMeta (buf.take len) = parseMeta buf := by
  simp only [parseMeta]
  rw [readLE_take buf len 0 4 (by omega), readLE_take buf len 8 8 (by omega),
      readLE_take buf len 16 4 (by omega), readLE_take buf len 20 4 (by omega)]

/-- Decoding a buffer made of complete chunks followed by a truncated tail
yields exactly the chunks' headers, in order. -/
theorem fanDecode_concat (cs : List (List Nat)) (t : List Nat)
    (hwf : ∀ c ∈ cs, WFChunk c)
    (ht : t.length < FAN_EVENT_METADATA_LEN ∨ t.length < readLE t 0 4) :
    fanDecode (cs.flatten ++ t) (cs.flatten ++ t).length = cs.map parseMeta := by
  induction cs with
  | nil =>
    have hb : ([] : List (List Nat)).flatten ++ t = t := by simp
    rw [hb, fanDecode, dif_neg]
    · rfl
    · simp only [FAN_EVENT_METADATA_LEN] at ht ⊢
      omega
  | cons c cs ih =>
    obtain ⟨hc1, hc2⟩ := hwf c (List.mem_cons_self c cs)
    have hrest : ∀ c' ∈ cs, WFChunk c' := fun c' h' =>
      hwf c' (List.mem_cons_of_mem c h')
    have hb : (c :: cs).flatten ++ t = c ++ (cs.flatten ++ t) := by simp
    rw [hb]
    have hlen4 : readLE (c ++ (cs.flatten ++ t)) 0 4 = c.length := by
      rw [readLE_append c _ 0 4 (by omega), hc2]
    have hL : (c ++ (cs.flatten ++ t)).length
        = c.length + (cs.flatten ++ t).length := by simp
    rw [fanDecode, dif_pos]
    · rw [hlen4, parseMeta_append c _ hc1, List.drop_left c (cs.flatten ++ t)]
      have hsub : (c ++ (cs.flatten ++ t)).length - c.length
          = (cs.flatten ++ t).length := by omega
      rw [hsub, ih hrest, List.map_cons]
    · refine ⟨?_, ?_, ?_⟩ <;>
        simp only [FAN_EVENT_METADATA_LEN, hlen4, hL] <;> omega

/-- The decoder only looks at the first `len` bytes: bytes past what `read`
returned never influence the result. -/
theorem fanDecode_take (buf : List Nat) (len : Nat) :
    fanDecode (buf.take len) len = fanDecode buf len := by
  induction len using Nat.strong_induction_on generalizing buf with
  | _ len ih =>
    by_cases hc : FAN_EVENT_METADATA_LEN ≤ len ∧
        FAN_EVENT_METADATA_LEN ≤ readLE buf 0 4 ∧ readLE buf 0 4 ≤ len
    · have h24 : 24 ≤ len := by
        have := hc.1
        simpa [FAN_EVENT_METADATA_LEN] using this
      have hr : readLE (buf.take len) 0 4 = readLE buf 0 4 :=
        readLE_take buf len 0 4 (by omega)
      have hc' : FAN_EVENT_METADATA_LEN ≤ len ∧
          FAN_EVENT_METADATA_LEN ≤ readLE (buf.take len) 0 4 ∧
          readLE (buf.take len) 0 4 ≤ len := by rw [hr]; exact hc
      rw [fanDecode, dif_pos hc']
      conv_rhs => rw [fanDecode, dif_pos hc]
      have hpos : 0 < readLE buf 0 4 := by
        have := hc.2.1
        simp only [FAN_EVENT_METADATA_LEN] at this
        omega
      rw [hr, parseMeta_take buf len h24]
      rw [List.drop_take (m := len) (n := readLE buf 0 4) (l := buf)]
      rw [ih (len - readLE buf 0 4) (by omega) (buf.drop (readLE buf 0 4))]
    · have hc' : ¬ (FAN_EVENT_METADATA_LEN ≤ len ∧
          FAN_EVENT_METADATA_LEN ≤ readLE (buf.take len) 0 4 ∧
          readLE (buf.take len) 0 4 ≤ len) := by
        intro h
        apply hc
        by_cases h4 : 4 ≤ len
        · rwa [readLE_take buf len 0 4 (by omega)] at h
        · exfalso
          have := h.1
          simp only [FAN_EVENT_METADATA_LEN] at this
          omega
      rw [fanDecode, dif_neg hc']
      rw [fanDecode, dif_neg hc]

theorem getmask_catName (c : Cat) : getmask (bytes (catName c)) = catBit c := by
  cases c <;> decide

theorem catBit_ne_zero (c : Cat) : catBit c ≠ 0 := by cases c <;> decide

theorem renderDirectives_length (ds : List Directive) :
    (renderDirectives ds).length = 2 * ds.length := by
  induction ds with
  | nil => rfl
  | cons d ds ih =>
    simp [renderDirectives, renderDirective] at ih ⊢
    omega

/-- The option loop consumes a rendered directive sequence as token/operand
pairs, folding each directive into the mask, and arrives past it. -/
theorem parseOpts_render (ds : List Directive) (em : Nat) (rest : List String)
    (i : Nat) :
    parseOpts em (renderDirectives ds ++ rest) i
      = parseOpts (ds.foldl applyDirective em) rest (i + 2 * ds.length) := by
  induction ds generalizing em i with
  | nil => simp [renderDirectives]
  | cons d ds ih =>
    obtain ⟨a, c⟩ := d
    have hidx : i + 2 * ((⟨a, c⟩ : Directive) :: ds).length
        = i + 2 + 2 * ds.length := by
      simp [List.length_cons]
      ring
    rw [hidx]
    cases a with
    | true =>
      have hstep : renderDirectives (⟨true, c⟩ :: ds) ++ rest
          = "+e" :: catName c :: (renderDirectives ds ++ rest) := by
        simp [renderDirectives, renderDirective]
      rw [hstep]
      simp only [parseOpts]
      rw [if_pos trivial]
      simp only [getmask_catName c, if_neg (catBit_ne_zero c)]
      rw [ih (em ||| catBit c) (i + 2), List.foldl_cons]
      have happ : applyDirective em ⟨true, c⟩ = em ||| catBit c := by
        simp [applyDirective]
      rw [happ]
    | false =>
      have hstep : renderDirectives (⟨false, c⟩ :: ds) ++ rest
          = "-e" :: catName c :: (renderDirectives ds ++ rest) := by
        simp [renderDirectives, renderDirective]
      rw [hstep]
      simp only [parseOpts]
      rw [if_neg (show ¬("-e" = "+e") by decide), if_pos trivial]
      simp only [getmask_catName c, if_neg (catBit_ne_zero c)]
      rw [ih (andNot64 em (catBit c)) (i + 2), List.foldl_cons]
      have happ : applyDirective em ⟨false, c⟩ = andNot64 em (catBit c) := by
        simp [applyDirective]
      rw [happ]

/-- The option loop stops, mask and index unchanged, at any word that is
neither directive token. -/
theorem parseOpts_stop (em : Nat) (i : Nat) (r : String) (rest : List String)
    (h1 : r ≠ "+e") (h2 : r ≠ "-e") :
    parseOpts em (r :: rest) i = (em, i) := by
  cases rest with
  | nil =>
    simp only [parseOpts]
    rw [if_neg h1, if_neg h2]
  | cons b rest'' =>
    simp only [parseOpts]
    rw [if_neg h1, if_neg h2]

/-- Full startup behavior on a rendered directive sequence followed by at
least one non-directive word. -/
theorem mainStartup_render (ds : List Directive) (prog : String)
    (r : String) (rest' : List String) (h1 : r ≠ "+e") (h2 : r ≠ "-e") :
    mainStartup (prog :: renderDirectives ds ++ (r :: rest'))
      = { usage := false, exitCode := none, signalFdOpened := true,
          fanotifyFdOpened := true,
          event_mask := ds.foldl applyDirective (startMask ds),
          monitors := r :: rest' } := by
  have hlen : (prog :: renderDirectives ds ++ (r :: rest')).length
      = 2 * ds.length + rest'.length + 2 := by
    simp [renderDirectives_length ds]
    omega
  have hem0 : (if (prog :: renderDirectives ds ++ (r :: rest')).getD 1 "" = "+e"
      then 0 else base_mask) = startMask ds := by
    have hg : (prog :: renderDirectives ds ++ (r :: rest')).getD 1 ""
        = (renderDirectives ds ++ (r :: rest')).getD 0 "" := rfl
    rw [hg]
    cases ds with
    | nil =>
      simp only [renderDirectives, List.flatMap_nil, List.nil_append,
        List.getD_cons_zero]
      rw [if_neg h1]
      simp [startMask]
    | cons d ds' =>
      obtain ⟨a, c⟩ := d
      cases a with
      | true =>
        have hh : (renderDirectives (⟨true, c⟩ :: ds') ++ (r :: rest')).getD 0 ""
            = "+e" := by
          simp [renderDirectives, renderDirective]
        rw [hh, if_pos rfl]
        simp [startMask]
      | false =>
        have hh : (renderDirectives (⟨false, c⟩ :: ds') ++ (r :: rest')).getD 0 ""
            = "-e" := by
          simp [renderDirectives, renderDirective]
        rw [hh, if_neg (by decide)]
        simp [startMask]
  have hparse : parseOpts (startMask ds)
        ((prog :: renderDirectives ds ++ (r :: rest')).drop 1) 1
      = (ds.foldl applyDirective (startMask ds), 1 + 2 * ds.length) := by
    have hdrop1 : (prog :: renderDirectives ds ++ (r :: rest')).drop 1
        = renderDirectives ds ++ (r :: rest') := rfl
    rw [hdrop1, parseOpts_render, parseOpts_stop _ _ r rest' h1 h2]
  have hdropm : (prog :: renderDirectives ds ++ (r :: rest')).drop
      (1 + 2 * ds.length) = r :: rest' := by
    have hsplit : prog :: renderDirectives ds ++ (r :: rest')
        = (prog :: renderDirectives ds) ++ (r :: rest') := by simp
    have hplen : (prog :: renderDirectives ds).length = 1 + 2 * ds.length := by
      simp [renderDirectives_length ds]
      omega
    rw [hsplit, ← hplen, List.drop_left]
  rw [mainStartup.eq_def]
  rw [if_neg (by omega), hem0, hparse]
  rw [if_neg (by simp only [hlen]; omega)]
  simp only [hdropm]

/-- Add then Remove of a category leaves its bit clear, whatever the mask. -/
theorem applyDirective_cancel (m : Nat) (c : Cat) :
    (applyDirective (applyDirective m ⟨true, c⟩) ⟨false, c⟩) &&& catBit c
      = 0 &&& catBit c := by
  have hb : (catBit c ^^^ (2 ^ 64 - 1)) &&& catBit c = 0 := by
    cases c <;> decide
  simp only [applyDirective, andNot64]
  rw [if_neg (show ¬(false = true) by decide), if_pos trivial]
  rw [Nat.and_assoc, hb, Nat.and_zero, Nat.zero_and]

/-- The option loop walks over any token/operand pairs and reaches the word
after them, with some resulting mask. -/
theorem parseOpts_pairs (ps : List (String × String))
    (hp : ∀ p ∈ ps, p.1 = "+e" ∨ p.1 = "-e") (em i : Nat) (rest : List String) :
    ∃ em', parseOpts em (ps.flatMap (fun p => [p.1, p.2]) ++ rest) i
      = parseOpts em' rest (i + 2 * ps.length) := by
  induction ps generalizing em i with
  | nil => exact ⟨em, by simp⟩
  | cons p ps ih =>
    obtain ⟨t, b⟩ := p
    have hidx : i + 2 * ((t, b) :: ps).length = i + 2 + 2 * ps.length := by
      simp [List.length_cons]
      ring
    rw [hidx]
    have hflat : ((t, b) :: ps).flatMap (fun p => [p.1, p.2]) ++ rest
        = t :: b :: (ps.flatMap (fun p => [p.1, p.2]) ++ rest) := by
      simp
    rw [hflat]
    have hrest : ∀ p ∈ ps, p.1 = "+e" ∨ p.1 = "-e" := fun q hq =>
      hp q (List.mem_cons_of_mem _ hq)
    rcases hp (t, b) (List.mem_cons_self _ _) with ht | ht <;> subst ht
    · obtain ⟨em', hem'⟩ := ih hrest
        (if getmask (bytes b) = 0 then em else em ||| getmask (bytes b)) (i + 2)
      refine ⟨em', ?_⟩
      simp only [parseOpts]
      rw [if_pos trivial]
      exact hem'
    · obtain ⟨em', hem'⟩ := ih hrest
        (if getmask (bytes b) = 0 then em
         else andNot64 em (getmask (bytes b))) (i + 2)
      refine ⟨em', ?_⟩
      simp only [parseOpts]
      rw [if_neg (show ¬("-e" = "+e") by decide), if_pos trivial]
      exact hem'

theorem pairs_flatMap_length (ps : List (String × String)) :
    (ps.flatMap (fun p => [p.1, p.2])).length = 2 * ps.length := by
  induction ps with
  | nil => rfl
  | cons q t ih =>
    simp only [List.flatMap_cons, List.length_append, List.length_cons,
      List.length_nil, ih]
    omega

/-- Startup on any token/operand pairs followed by a non-directive word:
everything from that word on, directive-shaped or not, becomes a monitored
directory. -/
theorem mainStartup_pairs (prog : String) (ps : List (String × String))
    (r : String) (rest' : List String)
    (hp : ∀ p ∈ ps, p.1 = "+e" ∨ p.1 = "-e")
    (h1 : r ≠ "+e") (h2 : r ≠ "-e") :
    ∃ em', mainStartup (prog :: ps.flatMap (fun p => [p.1, p.2]) ++ (r :: rest'))
      = { usage := false, exitCode := none, signalFdOpened := true,
          fanotifyFdOpened := true, event_mask := em',
          monitors := r :: rest' } := by
  have hflen := pairs_flatMap_length ps
  have hlen : (prog :: ps.flatMap (fun p => [p.1, p.2]) ++ (r :: rest')).length
      = 2 * ps.length + rest'.length + 2 := by
    simp only [List.length_cons, List.length_append, hflen]
    omega
  obtain ⟨em', hem'⟩ := parseOpts_pairs ps hp
    (if (prog :: ps.flatMap (fun p => [p.1, p.2]) ++ (r :: rest')).getD 1 "" = "+e"
      then 0 else base_mask) 1 (r :: rest')
  have hparse : parseOpts
      (if (prog :: ps.flatMap (fun p => [p.1, p.2]) ++ (r :: rest')).getD 1 "" = "+e"
        then 0 else base_mask)
      ((prog :: ps.flatMap (fun p => [p.1, p.2]) ++ (r :: rest')).drop 1) 1
      = (em', 1 + 2 * ps.length) := by
    have hdrop1 : (prog :: ps.flatMap (fun p => [p.1, p.2]) ++ (r :: rest')).drop 1
        = ps.flatMap (fun p => [p.1, p.2]) ++ (r :: rest') := rfl
    rw [hdrop1, hem', parseOpts_stop _ _ r rest' h1 h2]
  have hdropm : (prog :: ps.flatMap (fun p => [p.1, p.2]) ++ (r :: rest')).drop
      (1 + 2 * ps.length) = r :: rest' := by
    have hsplit : prog :: ps.flatMap (fun p => [p.1, p.2]) ++ (r :: rest')
        = (prog :: ps.flatMap (fun p => [p.1, p.2])) ++ (r :: rest') := by simp
    have hplen : (prog :: ps.flatMap (fun p => [p.1, p.2])).length
        = 1 + 2 * ps.length := by
      simp only [List.length_cons, hflen]
      omega
    rw [hsplit, ← hplen, List.drop_left]
  refine ⟨em', ?_⟩
  rw [mainStartup.eq_def]
  rw [if_neg (by omega), hparse]
  rw [if_neg (by simp only [hlen]; omega)]
  simp only [hdropm]

/-- Startup when the very first argument after the program name is not a
directive token: no parsing happens, the mask stays at the base default,
and every argument becomes a directory. -/
theorem mainStartup_nodirective (prog a : String) (args : List String)
    (h1 : a ≠ "+e") (h2 : a ≠ "-e") :
    mainStartup (prog :: a :: args)
      = { usage := false, exitCode := none, signalFdOpened := true,
          fanotifyFdOpened := true, event_mask := base_mask,
          monitors := a :: args } := by
  have hg : (prog :: a :: args).getD 1 "" = a := rfl
  have hparse : parseOpts
      (if (prog :: a :: args).getD 1 "" = "+e" then 0 else base_mask)
      ((prog :: a :: args).drop 1) 1 = (base_mask, 1) := by
    rw [hg, if_neg h1]
    exact parseOpts_stop _ _ a args h1 h2
  rw [mainStartup.eq_def]
  rw [if_neg (by simp only [List.length_cons]; omega), hparse]
  rw [if_neg (by simp only [List.length_cons]; omega)]
  rfl

theorem count_map_pair (paths : List String) (p : String) (em : Nat) :
    (paths.map (fun q => (q, em))).count (p, em) = paths.count p := by
  induction paths with
  | nil => rfl
  | cons q t ih =>
    simp only [List.map_cons, List.count_cons, ih, beq_iff_eq, Prod.mk.injEq]
    by_cases h : p = q <;> simp [h]

theorem loopStep_pollFail (inp : PollInput) (h : inp.pollFailed = true) :
    loopStep inp = .fatalExit := by
  simp [loopStep, h]

theorem loopStep_sigErr (inp : PollInput) (h0 : inp.pollFailed = false)
    (h1 : inp.signalReady = true) (h2 : inp.sigReadLen ≠ SIGINFO_SIZE) :
    loopStep inp = .fatalExit := by
  simp [loopStep, h0, h1, h2]

theorem loopStep_fanErr (inp : PollInput) (h0 : inp.pollFailed = false)
    (h1 : inp.signalReady = false ∨
      (inp.sigReadLen = SIGINFO_SIZE ∧ inp.signo ≠ SIGINT ∧ inp.signo ≠ SIGTERM))
    (h2 : inp.fanReadLen ≤ 0) :
    loopStep inp = .continueLoop [] := by
  rcases h1 with h1 | ⟨ha, hb, hc⟩
  · simp [loopStep, h0, h1]
    intro h
    omega
  · simp [loopStep, h0, ha, hb, hc]
    intro h
    omega

theorem loopStep_break (inp : PollInput) (h0 : inp.pollFailed = false)
    (h1 : inp.signalReady = true) (h2 : inp.sigReadLen = SIGINFO_SIZE)
    (h3 : inp.signo = SIGINT ∨ inp.signo = SIGTERM) :
    loopStep inp = .breakLoop := by
  simp [loopStep, h0, h1, h2, h3]

theorem bToLower_idem (b : Nat) : bToLower (bToLower b) = bToLower b := by
  unfold bToLower
  by_cases h : 65 ≤ b ∧ b ≤ 90
  · rw [if_pos h, if_neg (by omega)]
  · rw [if_neg h, if_neg h]

theorem lowerBytes_drop (l : List Nat) (k : Nat) :
    lowerBytes (l.drop k) = (lowerBytes l).drop k := by
  simp [lowerBytes, List.map_drop]

theorem caseStartsWith_lower (n1 n2 p : List Nat)
    (h : lowerBytes n1 = lowerBytes n2) :
    caseStartsWith n1 p = caseStartsWith n2 p := by
  induction p generalizing n1 n2 with
  | nil => cases n1 <;> cases n2 <;> rfl
  | cons pc pt ih =>
    cases n1 with
    | nil =>
      cases n2 with
      | nil => rfl
      | cons b bs => simp [lowerBytes] at h
    | cons a as =>
      cases n2 with
      | nil => simp [lowerBytes] at h
      | cons b bs =>
        simp only [lowerBytes, List.map_cons, List.cons.injEq] at h
        simp only [caseStartsWith, h.1, ih as bs h.2]

theorem caseFindDrop_lower (n1 n2 p : List Nat)
    (h : lowerBytes n1 = lowerBytes n2) :
    Option.map lowerBytes (caseFindDrop n1 p)
      = Option.map lowerBytes (caseFindDrop n2 p) := by
  induction n1 generalizing n2 with
  | nil =>
    cases n2 with
    | nil => rfl
    | cons b bs => simp [lowerBytes] at h
  | cons a as ih =>
    cases n2 with
    | nil => simp [lowerBytes] at h
    | cons b bs =>
      have hsw := caseStartsWith_lower (a :: as) (b :: bs) p h
      simp only [lowerBytes, List.map_cons, List.cons.injEq] at h
      by_cases hs : caseStartsWith (a :: as) p = true
      · rw [caseFindDrop, caseFindDrop, if_pos hs, if_pos (hsw ▸ hs)]
        have hl : lowerBytes (a :: as) = lowerBytes (b :: bs) := by
          simp [lowerBytes, h.1, h.2]
        simp [lowerBytes_drop, hl]
      · rw [caseFindDrop, caseFindDrop, if_neg hs, if_neg (hsw ▸ hs)]
        exact ih bs h.2

theorem stripFan_lower (n1 n2 : List Nat) (h : lowerBytes n1 = lowerBytes n2) :
    lowerBytes (stripFan n1) = lowerBytes (stripFan n2) := by
  unfold stripFan
  have hfd := caseFindDrop_lower n1 n2 (bytes "FAN_") h
  cases h1 : caseFindDrop n1 (bytes "FAN_") with
  | none =>
    cases h2 : caseFindDrop n2 (bytes "FAN_") with
    | none => simpa [h1, h2] using h
    | some v =>
      rw [h1, h2] at hfd
      simp at hfd
  | some u =>
    cases h2 : caseFindDrop n2 (bytes "FAN_") with
    | none =>
      rw [h1, h2] at hfd
      simp at hfd
    | some v =>
      rw [h1, h2] at hfd
      simpa using hfd

theorem lookupMask_lower (tbl : List (List Nat × Nat)) (b1 b2 : List Nat)
    (h : lowerBytes b1 = lowerBytes b2) :
    lookupMask tbl b1 = lookupMask tbl b2 := by
  induction tbl with
  | nil => rfl
  | cons e rest ih =>
    obtain ⟨n, v⟩ := e
    simp only [lookupMask, strcaseeq, h]
    split <;> [rfl; exact ih]

/-- `getmask` is fully determined by the lower-case image of its argument. -/
theorem getmask_lower (n1 n2 : List Nat) (h : lowerBytes n1 = lowerBytes n2) :
    getmask n1 = getmask n2 := by
  unfold getmask
  exact lookupMask_lower fanmaskTable _ _ (stripFan_lower n1 n2 h)

theorem getmask_char_A (name : List Nat) (c : Cat)
    (h : lowerBytes name = lowerBytes (bytes (catName c)) ∨
         lowerBytes name = lowerBytes (bytes "FAN_" ++ bytes (catName c))) :
    getmask name = catBit c := by
  rcases h with h | h
  · rw [getmask_lower name (bytes (catName c)) h]
    cases c <;> decide
  · rw [getmask_lower name (bytes "FAN_" ++ bytes (catName c)) h]
    cases c <;> decide

theorem getmask_char_B (name : List Nat)
    (h : ∀ c : Cat, strcaseeq (stripFan name) (bytes (catName c)) = false) :
    getmask name = 0 := by
  have h1 := h .accessed
  have h2 := h .modified
  have h3 := h .closedWrite
  have h4 := h .closedNoWrite
  have h5 := h .opened
  have h6 := h .onDir
  have h7 := h .onChild
  simp only [catName] at h1 h2 h3 h4 h5 h6 h7
  simp only [getmask, fanmaskTable, lookupMask, h1, h2, h3, h4, h5, h6, h7,
    Bool.false_eq_true, if_false]

theorem cmdline_some (s : List Nat) (hs : s ≠ []) :
    ∃ out, get_program_cmdline_from_pid true (some s) = some out ∧
      out.length = s.length ∧
      ∀ i, i < s.length →
        out.getD i 0 = (if s.getD i 0 = 0 then 32 else s.getD i 0) := by
  refine ⟨s.map (fun b => if b = 0 then 32 else b), ?_, by simp, ?_⟩
  · simp only [get_program_cmdline_from_pid]
    rw [if_neg (by simp)]
    rw [if_neg (by simpa [List.length_eq_zero] using hs)]
  · intro i hi
    have hgd : s.getD i 0 = s.get ⟨i, hi⟩ := by
      show (s.get? i).getD 0 = _
      rw [List.get?_eq_get hi]
      rfl
    have hmm : (s.map (fun b => if b = 0 then 32 else b)).getD i 0
        = (fun b => if b = 0 then 32 else b) (s.get ⟨i, hi⟩) := by
      show ((s.map _).get? i).getD 0 = _
      rw [List.get?_map, List.get?_eq_get hi]
      rfl
    rw [hmm, hgd]

/-!
## Claim theorems
-/

/-- C1: for every event record yielded by the decoder, the per-record
processing step is claimed to release the embedded descriptor exactly once on
every path.  The code does not: `event_process` closes the descriptor
unconditionally (line 135) and the batch loop closes it a second time
whenever it is positive (lines 378–379).  At the concrete record below
(a single well-formed record with descriptor 5) the decoder yields exactly
that record, and the processing step issues two release calls on descriptor
5 — for every path/cmdline resolution outcome — not one. -/
theorem event_fd_double_close :
    fanDecode [24, 0, 0, 0, 0, 0, 0, 0, 32, 0, 0, 0, 0, 0, 0, 0,
               5, 0, 0, 0, 77, 0, 0, 0] 24 = [⟨24, 32, 5, 77⟩] ∧
    (∀ pathRes cmdRes : Option (List Nat),
      record_closes ⟨24, 32, 5, 77⟩ pathRes cmdRes = [5, 5]) ∧
    ([5, 5] : List Int).length ≠ 1 := by
  refine ⟨?_, ?_, by decide⟩
  · have h := fanDecode_concat
      [[24, 0, 0, 0, 0, 0, 0, 0, 32, 0, 0, 0, 0, 0, 0, 0,
        5, 0, 0, 0, 77, 0, 0, 0]] []
      (by decide) (Or.inl (by decide))
    simp only [List.flatten_cons, List.flatten_nil, List.append_nil,
      List.map_cons, List.map_nil] at h
    have hm : parseMeta [24, 0, 0, 0, 0, 0, 0, 0, 32, 0, 0, 0, 0, 0, 0, 0,
        5, 0, 0, 0, 77, 0, 0, 0] = ⟨24, 32, 5, 77⟩ := by decide
    have hl : ([24, 0, 0, 0, 0, 0, 0, 0, 32, 0, 0, 0, 0, 0, 0, 0,
        5, 0, 0, 0, 77, 0, 0, 0] : List Nat).length = 24 := by decide
    rw [hm, hl] at h
    exact h
  · intro pathRes cmdRes
    rfl

/-- C2 counterexample: a read error on the notification channel (the
fanotify descriptor was readable, `read` returned −1) does not terminate
the process — the iteration processes nothing and the loop continues —
contradicting the claim that a non-would-block read error on either channel
forces immediate termination. -/
theorem fan_read_error_not_fatal :
    loopStep ⟨false, false, 0, 0, true, -1, []⟩ = .continueLoop [] ∧
    StepResult.continueLoop [] ≠ StepResult.fatalExit := by
  exact ⟨by decide, by decide⟩

/-- C2 (amended): while Running, a `poll` failure or a signal-channel read
that does not return a full `signalfd_siginfo` record causes immediate
`exit(EXIT_FAILURE)` with no teardown; an error (or end-of-file) returned
by a notification-channel read is silently ignored — the iteration yields
no records and the loop continues. -/
theorem channel_error_policy (inp : PollInput) :
    (inp.pollFailed = true → loopStep inp = .fatalExit) ∧
    (inp.pollFailed = false → inp.signalReady = true →
      inp.sigReadLen ≠ SIGINFO_SIZE → loopStep inp = .fatalExit) ∧
    (inp.pollFailed = false →
      (inp.signalReady = false ∨
        (inp.sigReadLen = SIGINFO_SIZE ∧ inp.signo ≠ SIGINT ∧
         inp.signo ≠ SIGTERM)) →
      inp.fanReadLen ≤ 0 → loopStep inp = .continueLoop []) :=
  ⟨fun h => loopStep_pollFail inp h,
   fun h0 h1 h2 => loopStep_sigErr inp h0 h1 h2,
   fun h0 h1 h2 => loopStep_fanErr inp h0 h1 h2⟩

theorem channel_error_policy_witness :
    loopStep ⟨true, false, 0, 0, false, 0, []⟩ = .fatalExit ∧
    loopStep ⟨false, true, -1, 0, false, 0, []⟩ = .fatalExit ∧
    loopStep ⟨false, true, 128, 1, true, -1, []⟩ = .continueLoop [] :=
  ⟨(channel_error_policy ⟨true, false, 0, 0, false, 0, []⟩).1 rfl,
   (channel_error_policy ⟨false, true, -1, 0, false, 0, []⟩).2.1 rfl rfl
     (by decide),
   (channel_error_policy ⟨false, true, 128, 1, true, -1, []⟩).2.2 rfl
     (Or.inr ⟨rfl, by decide, by decide⟩) (by decide)⟩

/-- C3: a buffer of N well-formed back-to-back records decodes to exactly
those N records in order; a buffer ending in a truncated record (no room
for a full header, or declared length beyond the remaining bytes) decodes
to exactly the N−1 complete records, with no partial record; and the
decoder's output never depends on bytes beyond the read length. -/
theorem decoder_correct :
    (∀ (cs : List (List Nat)) (t : List Nat),
      (∀ c ∈ cs, WFChunk c) →
      (t.length < FAN_EVENT_METADATA_LEN ∨ t.length < readLE t 0 4) →
      fanDecode (cs.flatten ++ t) (cs.flatten ++ t).length = cs.map parseMeta ∧
      (cs.map parseMeta).length = cs.length) ∧
    (∀ (buf : List Nat) (len : Nat),
      fanDecode buf len = fanDecode (buf.take len) len) :=
  ⟨fun cs t hwf ht => ⟨fanDecode_concat cs t hwf ht, by simp⟩,
   fun buf len => (fanDecode_take buf len).symm⟩

theorem decoder_correct_witness :
    (∀ c ∈ [[24, 0, 0, 0, 0, 0, 0, 0, 1, 0, 0, 0, 0, 0, 0, 0,
             5, 0, 0, 0, 7, 0, 0, 0],
            [28, 0, 0, 0, 0, 0, 0, 0, 2, 0, 0, 0, 0, 0, 0, 0,
             255, 255, 255, 255, 9, 0, 0, 0, 0, 0, 0, 0]], WFChunk c) ∧
    fanDecode
      (([[24, 0, 0, 0, 0, 0, 0, 0, 1, 0, 0, 0, 0, 0, 0, 0,
          5, 0, 0, 0, 7, 0, 0, 0],
         [28, 0, 0, 0, 0, 0, 0, 0, 2, 0, 0, 0, 0, 0, 0, 0,
          255, 255, 255, 255, 9, 0, 0, 0, 0, 0, 0, 0]] :
            List (List Nat)).flatten ++ [25, 0, 0, 0])
      ((([[24, 0, 0, 0, 0, 0, 0, 0, 1, 0, 0, 0, 0, 0, 0, 0,
           5, 0, 0, 0, 7, 0, 0, 0],
          [28, 0, 0, 0, 0, 0, 0, 0, 2, 0, 0, 0, 0, 0, 0, 0,
           255, 255, 255, 255, 9, 0, 0, 0, 0, 0, 0, 0]] :
             List (List Nat)).flatten ++ [25, 0, 0, 0]).length)
      = [⟨24, 1, 5, 7⟩, ⟨28, 2, -1, 9⟩] := by
  refine ⟨by decide, ?_⟩
  have h := (decoder_correct.1
    [[24, 0, 0, 0, 0, 0, 0, 0, 1, 0, 0, 0, 0, 0, 0, 0,
      5, 0, 0, 0, 7, 0, 0, 0],
     [28, 0, 0, 0, 0, 0, 0, 0, 2, 0, 0, 0, 0, 0, 0, 0,
      255, 255, 255, 255, 9, 0, 0, 0, 0, 0, 0, 0]]
    [25, 0, 0, 0] (by decide) (Or.inl (by decide))).1
  exact h.trans (by decide)

/-- C4: for every finite Add/Remove directive sequence over recognized
categories, the resulting mask is the left fold — OR for Add, AND-NOT for
Remove, in argument order — of the starting mask, which is 0 exactly when
the reset directive `"+e"` is the very first argument and the seven-category
base default otherwise; and Add followed by Remove of one category leaves
that category's bit equal to its value in the zero mask. -/
theorem mask_fold_correct :
    (∀ (ds : List Directive) (prog r : String) (rest' : List String),
      r ≠ "+e" → r ≠ "-e" →
      mainStartup (prog :: renderDirectives ds ++ (r :: rest'))
        = { usage := false, exitCode := none, signalFdOpened := true,
            fanotifyFdOpened := true,
            event_mask := ds.foldl applyDirective (startMask ds),
            monitors := r :: rest' }) ∧
    (∀ (m : Nat) (c : Cat),
      (applyDirective (applyDirective m ⟨true, c⟩) ⟨false, c⟩) &&& catBit c
        = 0 &&& catBit c) :=
  ⟨fun ds prog r rest' h1 h2 => mainStartup_render ds prog r rest' h1 h2,
   fun m c => applyDirective_cancel m c⟩

theorem mask_fold_correct_witness :
    ("dir" : String) ≠ "+e" ∧
    mainStartup ["prog", "+e", "OPEN", "-e", "OPEN", "dir"]
      = { usage := false, exitCode := none, signalFdOpened := true,
          fanotifyFdOpened := true, event_mask := 0, monitors := ["dir"] } ∧
    (applyDirective (applyDirective 32 ⟨true, .opened⟩) ⟨false, .opened⟩)
        &&& catBit .opened = 0 &&& catBit .opened := by
  refine ⟨by decide, ?_, mask_fold_correct.2 32 .opened⟩
  have h := mask_fold_correct.1
    [⟨true, .opened⟩, ⟨false, .opened⟩] "prog" "dir" [] (by decide) (by decide)
  have hlist : ("prog" :: renderDirectives [⟨true, .opened⟩, ⟨false, .opened⟩]
      ++ (["dir"] : List String)) = ["prog", "+e", "OPEN", "-e", "OPEN", "dir"] := by
    decide
  rw [hlist] at h
  exact h.trans (by decide)

/-- C5: a recognized termination signal (SIGINT or SIGTERM) read while
Running always breaks the loop — whatever notification input was pending in
the same poll round — and the teardown reached from that break attempts
removal of every registered path exactly once, each with the same mask the
registration used, ignores individual removal failures, frees every path,
and closes the channel. -/
theorem signal_shutdown_teardown (inp : PollInput) (markFails : String → Bool)
    (paths : List String) (em : Nat)
    (h0 : inp.pollFailed = false) (h1 : inp.signalReady = true)
    (h2 : inp.sigReadLen = SIGINFO_SIZE)
    (h3 : inp.signo = SIGINT ∨ inp.signo = SIGTERM) :
    loopStep inp = .breakLoop ∧
    mainIteration inp markFails paths em
      = some (shutdown_fanotify markFails paths em) ∧
    (shutdown_fanotify markFails paths em).removals
      = init_fanotify_marks paths em ∧
    (∀ p : String,
      (shutdown_fanotify markFails paths em).removals.count (p, em)
        = paths.count p) ∧
    (shutdown_fanotify markFails paths em).freed = paths ∧
    (shutdown_fanotify markFails paths em).channelClosed = true ∧
    shutdown_fanotify markFails paths em
      = shutdown_fanotify (fun _ => false) paths em := by
  have hb := loopStep_break inp h0 h1 h2 h3
  refine ⟨hb, ?_, rfl, fun p => count_map_pair paths p em, rfl, rfl, rfl⟩
  simp [mainIteration, hb]

theorem signal_shutdown_teardown_witness :
    loopStep ⟨false, true, 128, 2, true, 48, []⟩ = .breakLoop ∧
    mainIteration ⟨false, true, 128, 2, true, 48, []⟩ (fun p => p == "a")
        ["a", "b"] 3
      = some (shutdown_fanotify (fun p => p == "a") ["a", "b"] 3) ∧
    (shutdown_fanotify (fun p => p == "a") ["a", "b"] 3).removals
      = init_fanotify_marks ["a", "b"] 3 ∧
    (shutdown_fanotify (fun p => p == "a") ["a", "b"] 3).removals.count ("a", 3)
      = (["a", "b"] : List String).count "a" := by
  have h := signal_shutdown_teardown ⟨false, true, 128, 2, true, 48, []⟩
    (fun p => p == "a") ["a", "b"] 3 rfl rfl rfl (Or.inl rfl)
  exact ⟨h.1, h.2.1, h.2.2.1, h.2.2.2.1 "a"⟩

/-- C6 counterexample: `"xFAN_OPEN"` is none of the seven category names,
bare or prefixed (even ignoring case), yet the lookup returns `FAN_OPEN`
rather than the claimed no-match value 0 — because `strcasestr` finds the
`"FAN_"` marker anywhere in the string, not only as a prefix. -/
theorem getmask_strcasestr_counterexample :
    getmask (bytes "xFAN_OPEN") = FAN_OPEN ∧ FAN_OPEN ≠ 0 ∧
    (∀ c : Cat,
      lowerBytes (bytes "xFAN_OPEN") ≠ lowerBytes (bytes (catName c)) ∧
      lowerBytes (bytes "xFAN_OPEN")
        ≠ lowerBytes (bytes "FAN_" ++ bytes (catName c))) :=
  ⟨by decide, by decide, by decide⟩

/-- C6 (amended): lookup is case-insensitive and accepts each of the seven
names bare or with the `"FAN_"` marker — the marker may in fact occur
anywhere in the name, and everything through its first case-insensitive
occurrence is stripped before matching; a name whose stripped remainder
matches none of the seven names case-insensitively yields the no-match
value 0 (not an error). -/
theorem getmask_characterization :
    (∀ (name : List Nat) (c : Cat),
      (lowerBytes name = lowerBytes (bytes (catName c)) ∨
       lowerBytes name = lowerBytes (bytes "FAN_" ++ bytes (catName c))) →
      getmask name = catBit c) ∧
    (∀ name : List Nat,
      (∀ c : Cat, strcaseeq (stripFan name) (bytes (catName c)) = false) →
      getmask name = 0) :=
  ⟨getmask_char_A, getmask_char_B⟩

theorem getmask_characterization_witness :
    getmask (bytes "fan_open") = catBit Cat.opened ∧
    getmask (bytes "OpEn") = catBit Cat.opened ∧
    getmask (bytes "nonsense") = 0 :=
  ⟨getmask_characterization.1 (bytes "fan_open") .opened (Or.inr (by decide)),
   getmask_characterization.1 (bytes "OpEn") .opened (Or.inl (by decide)),
   getmask_characterization.2 (bytes "nonsense") (by decide)⟩

/-- C7 counterexample: for recorded arguments `a\0b\0` the code renders
`"a b "` — the trailing argument separator becomes a visible space like all
the others (the replacement loop runs for every byte read, the last
included) — not the claimed `"a b"` with the trailing separator trimmed. -/
theorem cmdline_trailing_space_counterexample :
    get_program_cmdline_from_pid true (some [97, 0, 98, 0])
      = some [97, 32, 98, 32] ∧
    get_program_cmdline_from_pid true (some [97, 0, 98, 0])
      ≠ some [97, 32, 98] := by
  exact ⟨by decide, by decide⟩

/-- C7 (amended): command-line resolution returns the recorded invocation
arguments with every separator byte — a trailing one included — replaced by
a visible space, and returns None (never a fatal error) when the process's
cmdline file cannot be opened, the read fails, or the read returns no
bytes. -/
theorem cmdline_characterization (r : Option (List Nat)) (s : List Nat) :
    get_program_cmdline_from_pid false r = none ∧
    get_program_cmdline_from_pid true none = none ∧
    get_program_cmdline_from_pid true (some []) = none ∧
    (s ≠ [] → ∃ out, get_program_cmdline_from_pid true (some s) = some out ∧
      out.length = s.length ∧
      ∀ i, i < s.length →
        out.getD i 0 = (if s.getD i 0 = 0 then 32 else s.getD i 0)) :=
  ⟨rfl, rfl, rfl, fun hs => cmdline_some s hs⟩

theorem cmdline_characterization_witness :
    get_program_cmdline_from_pid false (some [97]) = none ∧
    ([0] : List Nat) ≠ [] ∧
    (∃ out, get_program_cmdline_from_pid true (some [0]) = some out ∧
      out.length = ([0] : List Nat).length ∧
      ∀ i, i < ([0] : List Nat).length →
        out.getD i 0
          = (if ([0] : List Nat).getD i 0 = 0 then 32
             else ([0] : List Nat).getD i 0)) :=
  ⟨(cmdline_characterization (some [97]) [0]).1, by decide,
   (cmdline_characterization (some [97]) [0]).2.2.2 (by decide)⟩

/-- C8: whenever directive parsing leaves no directory argument (no
arguments at all, or only mask directives), startup takes the usage-error
path: usage is printed, the process exits with the non-zero `EXIT_FAILURE`,
and no core initialization happens — neither the signal channel nor the
notification channel is opened, and no marks are registered. -/
theorem usage_no_init (argv : List String)
    (h : (mainStartup argv).monitors = []) :
    (mainStartup argv).usage = true ∧
    (mainStartup argv).exitCode = some EXIT_FAILURE ∧
    EXIT_FAILURE ≠ 0 ∧
    (mainStartup argv).signalFdOpened = false ∧
    (mainStartup argv).fanotifyFdOpened = false := by
  rw [mainStartup.eq_def] at h ⊢
  split_ifs at h ⊢
  all_goals first
    | exact ⟨rfl, rfl, by decide, rfl, rfl⟩
    | (exfalso
       simp only [List.drop_eq_nil_iff] at h
       omega)

theorem usage_no_init_witness :
    (mainStartup ["prog", "+e", "ACCESS"]).monitors = [] ∧
    (mainStartup ["prog", "+e", "ACCESS"]).usage = true ∧
    (mainStartup ["prog", "+e", "ACCESS"]).signalFdOpened = false ∧
    (mainStartup ["prog", "+e", "ACCESS"]).fanotifyFdOpened = false ∧
    (mainStartup ["prog"]).usage = true ∧
    (mainStartup ["prog"]).exitCode = some EXIT_FAILURE := by
  have h1 := usage_no_init ["prog", "+e", "ACCESS"] (by decide)
  have h2 := usage_no_init ["prog"] (by decide)
  exact ⟨by decide, h1.1, h1.2.2.2.1, h1.2.2.2.2, h2.1, h2.2.1⟩

/-- C9: path resolution returns None for every descriptor value ≤ 0 — not
only the −1 sentinel but also the legal descriptor 0 — without consulting
the descriptor table at all (the result is None whatever `readlink` would
have returned). -/
theorem fd_nonpositive_none (fd : Int) (r : Option (List Nat))
    (h : fd ≤ 0) :
    get_file_path_from_fd fd r = none := by
  unfold get_file_path_from_fd
  rw [if_pos h]

theorem fd_nonpositive_none_witness :
    ((0 : Int) ≤ 0) ∧
    get_file_path_from_fd 0 (some [47, 116, 109, 112]) = none ∧
    get_file_path_from_fd (-1) (some [47]) = none :=
  ⟨by decide,
   fd_nonpositive_none 0 (some [47, 116, 109, 112]) (by decide),
   fd_nonpositive_none (-1) (some [47]) (by decide)⟩

/-- C10: the option scan consumes token/operand pairs and stops at the
first scanned argument that is neither `"+e"` nor `"-e"`; every argument
from that position on — later `"+e"`/`"-e"` spellings included — is treated
as a directory to register; and when the first argument is not a directive
token no reset happens: the mask stays at the base default (the reset
behavior of `"+e"` applies only in the very first position). -/
theorem parse_stop_behavior :
    (∀ (prog : String) (ps : List (String × String)) (r : String)
       (rest' : List String),
      (∀ p ∈ ps, p.1 = "+e" ∨ p.1 = "-e") → r ≠ "+e" → r ≠ "-e" →
      (mainStartup
          (prog :: ps.flatMap (fun p => [p.1, p.2]) ++ (r :: rest'))).monitors
        = r :: rest' ∧
      (mainStartup
          (prog :: ps.flatMap (fun p => [p.1, p.2]) ++ (r :: rest'))).usage
        = false) ∧
    (∀ (prog a : String) (args : List String), a ≠ "+e" → a ≠ "-e" →
      mainStartup (prog :: a :: args)
        = { usage := false, exitCode := none, signalFdOpened := true,
            fanotifyFdOpened := true, event_mask := base_mask,
            monitors := a :: args }) := by
  constructor
  · intro prog ps r rest' hp h1 h2
    obtain ⟨em', hem'⟩ := mainStartup_pairs prog ps r rest' hp h1 h2
    rw [hem']
    exact ⟨rfl, rfl⟩
  · intro prog a args h1 h2
    exact mainStartup_nodirective prog a args h1 h2

theorem parse_stop_behavior_witness :
    (mainStartup ["prog", "+e", "JUNK", "dir", "+e"]).monitors
      = ["dir", "+e"] ∧
    (mainStartup ["prog", "+e", "JUNK", "dir", "+e"]).usage = false ∧
    mainStartup ["prog", "d1", "-e"]
      = { usage := false, exitCode := none, signalFdOpened := true,
          fanotifyFdOpened := true, event_mask := base_mask,
          monitors := ["d1", "-e"] } := by
  have h1 := parse_stop_behavior.1 "prog" [("+e", "JUNK")] "dir" ["+e"]
    (by decide) (by decide) (by decide)
  have hL : ("prog" :: ([("+e", "JUNK")] : List (String × String)).flatMap
      (fun p => [p.1, p.2]) ++ (("dir" : String) :: ["+e"]))
      = ["prog", "+e", "JUNK", "dir", "+e"] := rfl
  rw [hL] at h1
  have h2 := parse_stop_behavior.2 "prog" "d1" ["-e"] (by decide) (by decide)
  exact ⟨h1.1, h1.2, h2⟩

end Fanotify
